/-
Verification of the spreadsheet-document codec in
`Data-Compilation-Tool-V2/launcher.py`.

The Python source is shallowly embedded: each `def` below models the
source function of the same (camel-cased) name.  Machine floats are
modelled by their textual representation (`repr`): Python's `repr` is
injective on finite IEEE doubles and `float (repr x) == x`, so equality
of representations coincides with equality of values.  Partial dict
lookups are modelled with `Option`.
-/
import Mathlib

namespace DataTool

/-! ### Decimal rendering of integers

Models Python's `str(i)` / f-string interpolation of a non-negative
integer (used for row numbers, sheet ids, relationship ids, shared
string indices, and duplicate-header suffixes). -/

/-- Digits of `n` in base 10, most significant first.  The first
argument is recursion fuel (any value above `n` gives the same result,
see `natToDecGo_fuel`); it makes the definition structurally recursive
so that concrete inputs evaluate inside the kernel. -/
def natToDecGo : Nat → Nat → List Char
  | 0, _ => []
  | fuel + 1, n =>
    if n < 10 then [Char.ofNat (48 + n % 10)]
    else natToDecGo fuel (n / 10) ++ [Char.ofNat (48 + n % 10)]

/-- Digits of `n` in base 10, most significant first, as characters.
Models the decimal rendering performed by Python's `str`. -/
def natToDecAux (n : Nat) : List Char := natToDecGo (n + 1) n

/-- `str(n)` for a non-negative integer `n`. -/
def natToDec (n : Nat) : String := ⟨natToDecAux n⟩

/-- Base-10 valuation of a digit string, used to invert `natToDecAux`. -/
def decVal (l : List Char) : Nat :=
  l.foldl (fun acc c => acc * 10 + (c.toNat - 48)) 0

/-! ### `_col_letter` — bijective base-26 column lettering

```python
def _col_letter(idx):
    result = ''
    while True:
        result = chr(65 + idx % 26) + result
        idx = idx // 26 - 1
        if idx < 0:
            break
    return result
```

The loop body always runs at least once; it prepends `chr(65 + idx % 26)`
and continues with `idx // 26 - 1` while that is non-negative. -/

/-- Characters of `_col_letter(idx)`, most significant first.  The
first argument is recursion fuel (any value above `idx` gives the same
result, see `colLetterGo_fuel`). -/
def colLetterGo : Nat → Nat → List Char
  | 0, _ => []
  | fuel + 1, idx =>
    if idx < 26 then [Char.ofNat (65 + idx % 26)]
    else colLetterGo fuel (idx / 26 - 1) ++ [Char.ofNat (65 + idx % 26)]

/-- Characters of `_col_letter(idx)`, most significant first. -/
def colLetterAux (idx : Nat) : List Char := colLetterGo (idx + 1) idx

/-- `_col_letter`: 0-based column index to spreadsheet column letters. -/
def colLetter (idx : Nat) : String := ⟨colLetterAux idx⟩

/-- Bijective base-26 valuation of a letter string (digits `A`..`Z`
valued 0..25, with the `+1` shift of bijective numeration). -/
def colValFrom (acc : Int) (l : List Char) : Int :=
  l.foldl (fun acc c => (acc + 1) * 26 + ((c.toNat : Int) - 65)) acc

def colVal (l : List Char) : Int := colValFrom (-1) l

/-! ### The spreadsheet column order

Columns are ordered first by the length of their letter string, then
lexicographically by character code; `_col_letter` enumerates columns
in exactly this order. -/

/-- Strict lexicographic order on character lists, by character code. -/
def lexLt : List Char → List Char → Bool
  | [], [] => false
  | [], _ :: _ => true
  | _ :: _, [] => false
  | a :: s, b :: t => a.toNat < b.toNat || (a.toNat == b.toNat && lexLt s t)

/-- The order in which spreadsheet columns are enumerated: shorter
letter strings first, same-length strings lexicographically. -/
def colOrderLt (a b : String) : Prop :=
  a.data.length < b.data.length ∨
    (a.data.length = b.data.length ∧ lexLt a.data b.data = true)

instance (a b : String) : Decidable (colOrderLt a b) := by
  unfold colOrderLt; infer_instance

/-! ### `_xml_escape` — `xml.sax.saxutils.escape`

The source imports `xml.sax.saxutils.escape`, which performs
`data.replace("&", "&amp;").replace("<", "&lt;").replace(">", "&gt;")`.
Because `&` is replaced first and the replacement texts contain no `<`
or `>`, the chain of replaces rewrites each character of the original
string independently, so it equals a single left-to-right pass. -/

/-- Image of one character under `xml.sax.saxutils.escape`. -/
def escapeChar (c : Char) : List Char :=
  if c = '&' then ['&', 'a', 'm', 'p', ';']
  else if c = '<' then ['&', 'l', 't', ';']
  else if c = '>' then ['&', 'g', 't', ';']
  else [c]

/-- `_xml_escape`: `xml.sax.saxutils.escape` with default entities. -/
def xmlEscape (s : String) : String := ⟨s.data.flatMap escapeChar⟩

/-- Modelled from the spec: the inverse `xml.sax.saxutils.unescape`
(stdlib, not part of the repository) undoes the three entity
replacements (`&lt;`, `&gt;` first, `&amp;` last).  On output of
`escape`, where every `&` starts an entity, this equals a single
left-to-right scan. -/
def xmlUnescape : List Char → List Char
  | [] => []
  | c :: rest =>
    if c = '&' ∧ rest.take 4 = ['a', 'm', 'p', ';'] then '&' :: xmlUnescape (rest.drop 4)
    else if c = '&' ∧ rest.take 3 = ['l', 't', ';'] then '<' :: xmlUnescape (rest.drop 3)
    else if c = '&' ∧ rest.take 3 = ['g', 't', ';'] then '>' :: xmlUnescape (rest.drop 3)
    else c :: xmlUnescape rest
termination_by l => l.length
decreasing_by
  all_goals simp_wf
  all_goals omega

/-! ### `_deduplicate_columns` — header deduplication

```python
def _deduplicate_columns(columns):
    seen = {}
    result = []
    for col in columns:
        col_str = str(col) if col is not None else ''
        if col_str in seen:
            seen[col_str] += 1
            result.append(f"{col_str}.{seen[col_str]}")
        else:
            seen[col_str] = 0
            result.append(col_str)
    return result
```

Header texts are modelled post-`str` as strings; the dict `seen` is
modelled as a partial map. -/

def dedupGo (seen : String → Option Nat) : List String → List String
  | [] => []
  | c :: rest =>
    match seen c with
    | some k =>
      (c ++ "." ++ natToDec (k + 1))
        :: dedupGo (fun s => if s = c then some (k + 1) else seen s) rest
    | none => c :: dedupGo (fun s => if s = c then some 0 else seen s) rest

/-- `_deduplicate_columns`. -/
def deduplicateColumns (cols : List String) : List String :=
  dedupGo (fun _ => none) cols

/-- The deduplication convention as the spec words it: scanning left to
right, the first occurrence of a text is kept as-is, the `(k+1)`-st
occurrence becomes `text.k`, counters per distinct text.  `pre` is the
already-scanned prefix. -/
def dedupSpec : List String → List String → List String
  | _, [] => []
  | pre, c :: rest =>
    (if pre.count c = 0 then c else c ++ "." ++ natToDec (pre.count c))
      :: dedupSpec (pre ++ [c]) rest

/-! ### Data model

A pandas DataFrame is embedded as a header list plus column-oriented
data.  A column is `numeric` when its dtype kind is `i`/`u`/`f`, else
`textual`.  A numeric value is either a finite number, identified by
its textual representation (`repr` is injective on finite doubles and
`float(repr(x)) == x`, so value equality is representation equality),
or `NaN`/`±Infinity`.  Textual cell values are taken post-`astype(str)`. -/

inductive NumVal where
  | fin (rep : String)
  | nan
  | posInf
  | negInf
deriving DecidableEq

/-- `pd.isna(val) or np.isinf(val)` for a value of a numeric column. -/
def NumVal.isBlank : NumVal → Bool
  | .fin _ => false
  | _ => true

inductive ColVals where
  | numeric (vals : List NumVal)
  | textual (vals : List String)
deriving DecidableEq

def ColVals.size : ColVals → Nat
  | .numeric vs => vs.length
  | .textual vs => vs.length

structure DataFrame where
  headers : List String
  cols : List ColVals
deriving DecidableEq

/-- `df.shape[0]`. -/
def DataFrame.nrows (df : DataFrame) : Nat :=
  match df.cols with
  | [] => 0
  | c :: _ => c.size

/-- Well-formedness of the embedding: one header per column and
homogeneous column lengths (guaranteed by the DataFrame type in the
source). -/
def DataFrame.WF (df : DataFrame) : Prop :=
  df.headers.length = df.cols.length ∧ ∀ c ∈ df.cols, c.size = df.nrows

instance (df : DataFrame) : Decidable df.WF := by
  unfold DataFrame.WF; infer_instance

/-- The missing-value normalization
`.replace({'nan': '', 'None': '', '<NA>': '', 'NaT': ''})` applied to a
post-`astype(str)` cell: the four tokens are replaced (as whole-cell
matches) by the empty string. -/
def normalizeMissing (s : String) : String :=
  if s = "nan" ∨ s = "None" ∨ s = "<NA>" ∨ s = "NaT" then "" else s

/-! ### `_collect_strings` and the shared string table -/

/-- `_collect_strings(df)`: header texts, normalized values of every
textual column, and the empty string.  The Python function returns a
set; the list below has the same members. -/
def collectStrings (df : DataFrame) : List String :=
  df.headers
    ++ df.cols.foldr (fun col acc =>
        match col with
        | ColVals.numeric _ => acc
        | ColVals.textual vs => vs.map normalizeMissing ++ acc) []
    ++ [""]

/-- Python's `sorted` on strings (code-point lexicographic order). -/
def sortedStrings (l : List String) : List String :=
  l.insertionSort (· ≤ ·)

/-- The shared string table of `_write_xlsx_raw`:
`all_strings = union of _collect_strings(df); sst = sorted(all_strings)`.
Set union is modelled by concatenation followed by `dedup`. -/
def buildSST (sheets : List (String × DataFrame)) : List String :=
  sortedStrings ((sheets.map (fun nd => collectStrings nd.2)).flatten.dedup)

/-- The index map `sst_index = {s: i for i, s in enumerate(sst)}`;
`none` models a `KeyError`.  (Keys of `sst` are distinct, so the last
occurrence that the dict comprehension keeps is the only one.) -/
def sstLookup : List String → String → Option Nat
  | [], _ => none
  | t :: rest, s => if t = s then some 0 else (sstLookup rest s).map (· + 1)

/-! ### `_df_to_sheet_xml` — sheet encoding

The worksheet XML is built in two layers: a structured layer (the cell
content) and a rendering layer (the exact markup text, mirroring the
f-strings of the source).  A cell is either a shared-string reference
(`<c r=".." t="s"><v>i</v></c>`) or a bare numeric literal
(`<c r=".."><v>val</v></c>`). -/

inductive Cell where
  | sref (i : Nat)
  | numCell (rep : String)
deriving DecidableEq

/-- A numeric-column value: `NaN`/`±Infinity` becomes a shared-string
reference to the empty-string entry, anything else the bare literal. -/
def encodeNumVal (idx : String → Option Nat) : NumVal → Option Cell
  | NumVal.fin rep => some (Cell.numCell rep)
  | _ => (idx ("")).map Cell.sref

/-- A textual-column value: normalized, then a shared-string
reference. -/
def encodeTextVal (idx : String → Option Nat) (v : String) : Option Cell :=
  (idx (normalizeMissing v)).map Cell.sref

/-- Header row: every header cell is a shared-string reference
(`t="s"`) regardless of the column's classification. -/
def encodeHeaderRow (idx : String → Option Nat) (headers : List String) :
    Option (List Cell) :=
  headers.mapM (fun h => (idx h).map Cell.sref)

def encodeDataCell (idx : String → Option Nat) (col : ColVals) (r : Nat) :
    Option Cell :=
  match col with
  | ColVals.numeric vs => (vs.get? r).bind (encodeNumVal idx)
  | ColVals.textual vs => (vs.get? r).bind (encodeTextVal idx)

def encodeDataRow (idx : String → Option Nat) (cols : List ColVals) (r : Nat) :
    Option (List Cell) :=
  cols.mapM (fun col => encodeDataCell idx col r)

/-- The structured content of `sheetData`: header row then one row per
data row. -/
def encodeRows (df : DataFrame) (idx : String → Option Nat) :
    Option (List (List Cell)) := do
  let hrow ← encodeHeaderRow idx df.headers
  let drows ← (List.range df.nrows).mapM (encodeDataRow idx df.cols)
  pure (hrow :: drows)

/-- `<c .../>` markup for one cell at 1-based row `r1`, 0-based column
`c`. -/
def renderCell (r1 c : Nat) : Cell → String
  | Cell.sref i =>
    "<c r=\"" ++ colLetter c ++ natToDec r1 ++ "\" t=\"s\"><v>" ++ natToDec i ++ "</v></c>"
  | Cell.numCell rep =>
    "<c r=\"" ++ colLetter c ++ natToDec r1 ++ "\"><v>" ++ rep ++ "</v></c>"

def renderRow (r1 : Nat) (cells : List Cell) : String :=
  "<row r=\"" ++ natToDec r1 ++ "\">"
    ++ String.join (cells.enum.map (fun ic => renderCell r1 ic.1 ic.2))
    ++ "</row>"

def sheetXmlProlog : String :=
  "<?xml version=\"1.0\" encoding=\"UTF-8\" standalone=\"yes\"?>\n<worksheet xmlns=\"http://schemas.openxmlformats.org/spreadsheetml/2006/main\">"

/-- The minimal markup emitted for a sheet with zero columns. -/
def emptySheetXml : String := sheetXmlProlog ++ "<sheetData/></worksheet>"

/-- `_df_to_sheet_xml(df, sst_index)`.  `none` models a `KeyError`
during a shared-string lookup. -/
def dfToSheetXml (df : DataFrame) (idx : String → Option Nat) : Option String :=
  if df.cols.length = 0 then some emptySheetXml
  else
    (encodeRows df idx).map (fun rows =>
      sheetXmlProlog ++ "<sheetData>"
        ++ String.join (rows.enum.map (fun ir => renderRow (ir.1 + 1) ir.2))
        ++ "</sheetData></worksheet>")

/-! ### `_write_xlsx_raw` — package assembly -/

/-- Structured sheet content as archived: a zero-column sheet has an
empty `sheetData` (no rows at all). -/
def structuredSheet (df : DataFrame) (idx : String → Option Nat) :
    Option (List (List Cell)) :=
  if df.cols.length = 0 then some [] else encodeRows df idx

/-- Structured content of a package: shared string table plus the
per-sheet cell rows, in input order. -/
structure PackageStruct where
  sst : List String
  sheetRows : List (String × List (List Cell))
deriving DecidableEq

/-- Structured view of `_write_xlsx_raw`: build the table over the full
sheet set, then encode every sheet against it. -/
def assemblePackage (sheets : List (String × DataFrame)) : Option PackageStruct :=
  let sst := buildSST sheets
  (sheets.mapM (fun nd => (structuredSheet nd.2 (sstLookup sst)).map (fun rows => (nd.1, rows)))).map
    (fun shs => PackageStruct.mk sst shs)

/-- `sharedStrings.xml`. -/
def sstXml (sst : List String) : String :=
  "<?xml version=\"1.0\" encoding=\"UTF-8\" standalone=\"yes\"?>\n<sst xmlns=\"http://schemas.openxmlformats.org/spreadsheetml/2006/main\" count=\"0\" uniqueCount=\""
    ++ natToDec sst.length ++ "\">"
    ++ String.join (sst.map (fun s => "<si><t>" ++ xmlEscape s ++ "</t></si>"))
    ++ "</sst>"

/-- The per-sheet content-type override entry. -/
def ctOverride (i : Nat) : String :=
  "<Override PartName=\"/xl/worksheets/sheet" ++ natToDec (i + 1)
    ++ ".xml\" ContentType=\"application/vnd.openxmlformats-officedocument.spreadsheetml.worksheet+xml\"/>"

/-- `[Content_Types].xml` for `n` sheets. -/
def contentTypesXml (n : Nat) : String :=
  "<?xml version=\"1.0\" encoding=\"UTF-8\" standalone=\"yes\"?><Types xmlns=\"http://schemas.openxmlformats.org/package/2006/content-types\"><Default Extension=\"rels\" ContentType=\"application/vnd.openxmlformats-package.relationships+xml\"/><Default Extension=\"xml\" ContentType=\"application/xml\"/><Override PartName=\"/xl/workbook.xml\" ContentType=\"application/vnd.openxmlformats-officedocument.spreadsheetml.sheet.main+xml\"/>"
    ++ String.join ((List.range n).map ctOverride)
    ++ "<Override PartName=\"/xl/styles.xml\" ContentType=\"application/vnd.openxmlformats-officedocument.spreadsheetml.styles+xml\"/><Override PartName=\"/xl/sharedStrings.xml\" ContentType=\"application/vnd.openxmlformats-officedocument.spreadsheetml.sharedStrings+xml\"/></Types>"

def wsRelType : String :=
  "http://schemas.openxmlformats.org/officeDocument/2006/relationships/worksheet"

def stylesRelType : String :=
  "http://schemas.openxmlformats.org/officeDocument/2006/relationships/styles"

def sstRelType : String :=
  "http://schemas.openxmlformats.org/officeDocument/2006/relationships/sharedStrings"

/-- Structured workbook-level relationship list: `(rId number, type,
target)` — one entry per sheet, then styles, then shared strings. -/
def wbRels (n : Nat) : List (Nat × String × String) :=
  (List.range n).map (fun i => (i + 1, wsRelType, "worksheets/sheet" ++ natToDec (i + 1) ++ ".xml"))
    ++ [(n + 1, stylesRelType, "styles.xml"), (n + 2, sstRelType, "sharedStrings.xml")]

def renderRel (e : Nat × String × String) : String :=
  "<Relationship Id=\"rId" ++ natToDec e.1 ++ "\" Type=\"" ++ e.2.1
    ++ "\" Target=\"" ++ e.2.2 ++ "\"/>"

/-- `xl/_rels/workbook.xml.rels`. -/
def wbRelsXml (n : Nat) : String :=
  "<?xml version=\"1.0\" encoding=\"UTF-8\" standalone=\"yes\"?><Relationships xmlns=\"http://schemas.openxmlformats.org/package/2006/relationships\">"
    ++ String.join ((wbRels n).map renderRel)
    ++ "</Relationships>"

/-- One `<sheet .../>` entry of the workbook manifest: position `i`
(0-based) gets `sheetId i+1` and relationship id `rId(i+1)`. -/
def sheetEntryXml (i : Nat) (name : String) : String :=
  "<sheet name=\"" ++ xmlEscape name ++ "\" sheetId=\"" ++ natToDec (i + 1)
    ++ "\" r:id=\"rId" ++ natToDec (i + 1) ++ "\"/>"

/-- `xl/workbook.xml`. -/
def workbookXml (names : List String) : String :=
  "<?xml version=\"1.0\" encoding=\"UTF-8\" standalone=\"yes\"?><workbook xmlns=\"http://schemas.openxmlformats.org/spreadsheetml/2006/main\" xmlns:r=\"http://schemas.openxmlformats.org/officeDocument/2006/relationships\"><sheets>"
    ++ String.join (names.enum.map (fun inm => sheetEntryXml inm.1 inm.2))
    ++ "</sheets></workbook>"

/-- `_rels/.rels`. -/
def relsXml : String :=
  "<?xml version=\"1.0\" encoding=\"UTF-8\" standalone=\"yes\"?><Relationships xmlns=\"http://schemas.openxmlformats.org/package/2006/relationships\"><Relationship Id=\"rId1\" Type=\"http://schemas.openxmlformats.org/officeDocument/2006/relationships/officeDocument\" Target=\"xl/workbook.xml\"/></Relationships>"

/-- `xl/styles.xml`. -/
def stylesXml : String :=
  "<?xml version=\"1.0\" encoding=\"UTF-8\" standalone=\"yes\"?><styleSheet xmlns=\"http://schemas.openxmlformats.org/spreadsheetml/2006/main\"><fonts count=\"1\"><font><sz val=\"11\"/><name val=\"Calibri\"/></font></fonts><fills count=\"2\"><fill><patternFill patternType=\"none\"/></fill><fill><patternFill patternType=\"gray125\"/></fill></fills><borders count=\"1\"><border><left/><right/><top/><bottom/><diagonal/></border></borders><cellStyleXfs count=\"1\"><xf numFmtId=\"0\" fontId=\"0\" fillId=\"0\" borderId=\"0\"/></cellStyleXfs><cellXfs count=\"1\"><xf numFmtId=\"0\" fontId=\"0\" fillId=\"0\" borderId=\"0\" xfId=\"0\"/></cellXfs></styleSheet>"

/-- `_write_xlsx_raw(sheets_data, output)`: the list of archive
entries `(name, content)` in the order they are written. -/
def writeXlsxRaw (sheetsData : List (String × DataFrame)) :
    Option (List (String × String)) :=
  let sst := buildSST sheetsData
  (sheetsData.mapM (fun nd => dfToSheetXml nd.2 (sstLookup sst))).map (fun wsXmls =>
    [("[Content_Types].xml", contentTypesXml sheetsData.length),
     ("_rels/.rels", relsXml),
     ("xl/_rels/workbook.xml.rels", wbRelsXml sheetsData.length),
     ("xl/workbook.xml", workbookXml (sheetsData.map (fun nd => nd.1))),
     ("xl/styles.xml", stylesXml),
     ("xl/sharedStrings.xml", sstXml sst)]
    ++ wsXmls.enum.map (fun ix => ("xl/worksheets/sheet" ++ natToDec (ix.1 + 1) ++ ".xml", ix.2)))

/-! ### FastReader fallback decoding

Modelled from the spec: the fallback path of FastReader is a
third-party DOM reader (`pd.read_excel(..., engine='openpyxl')`, not
part of this repository).  Per the spec it resolves `t="s"` cells
through the shared string table, reads bare `<v>` content as the
numeric value, treats row 1 as the header row and deduplicates repeated
header names with the same suffixing convention as the fast path.  The
decoder below consumes the structured content whose rendering is the
worksheet markup. -/

inductive CellValue where
  | str (s : String)
  | numv (rep : String)
deriving DecidableEq

def decodeCell (sst : List String) : Cell → Option CellValue
  | Cell.sref i => (sst.get? i).map CellValue.str
  | Cell.numCell rep => some (CellValue.numv rep)

def decodeHeaderCell (sst : List String) : Cell → Option String
  | Cell.sref i => sst.get? i
  | Cell.numCell rep => some rep

/-- Decode one sheet: header row then data grid, with header
deduplication. -/
def decodeSheetFallback (sst : List String) (rows : List (List Cell)) :
    Option (List String × List (List CellValue)) :=
  match rows with
  | [] => some ([], [])
  | hrow :: drows => do
    let hs ← hrow.mapM (decodeHeaderCell sst)
    let grid ← drows.mapM (fun row => row.mapM (decodeCell sst))
    pure (deduplicateColumns hs, grid)

/-- Decode the first sheet of a package. -/
def decodeFirstSheet (pkg : PackageStruct) :
    Option (List String × List (List CellValue)) :=
  match pkg.sheetRows with
  | [] => none
  | s1 :: _ => decodeSheetFallback pkg.sst s1.2

/-- The cell values the round trip is expected to produce: numeric
cells by value, NaN/±Infinity as blank, textual cells normalized. -/
def expectedCellValue (col : ColVals) (r : Nat) : CellValue :=
  match col with
  | ColVals.numeric vs =>
    match vs.getD r NumVal.nan with
    | NumVal.fin rep => CellValue.numv rep
    | _ => CellValue.str ""
  | ColVals.textual vs => CellValue.str (normalizeMissing (vs.getD r ""))

def expectedGrid (df : DataFrame) : List (List CellValue) :=
  (List.range df.nrows).map (fun r => df.cols.map (fun col => expectedCellValue col r))

/-- The total index function that the lookups compute when every lookup
hits the table. -/
def sstIdx (sst : List String) (s : String) : Nat := (sstLookup sst s).getD 0

/-- The cell actually produced for column `col`, row `r`, when all
lookups succeed. -/
def totalCell (sst : List String) (col : ColVals) (r : Nat) : Cell :=
  match col with
  | ColVals.numeric vs =>
    match vs.getD r NumVal.nan with
    | NumVal.fin rep => Cell.numCell rep
    | _ => Cell.sref (sstIdx sst (""))
  | ColVals.textual vs => Cell.sref (sstIdx sst (normalizeMissing (vs.getD r "")))

/-! ### `combine_files` — consolidation with schema check

The persisted project state is the pickled consolidated table and the
cached Excel artifact.  File contents are modelled by the embedded
`DataFrame` they deserialize to (serialization is injective, so
"byte-for-byte unchanged" is "equal embedded state").
`optimize_dataframe` only downcasts dtypes and converts low-cardinality
object columns to category; the embedding does not track dtype width,
so it is passed as an explicit parameter constrained to preserve
headers where a claim needs that. -/

structure Store where
  pickle : Option DataFrame
  excel : Option DataFrame
deriving DecidableEq

inductive CombineResult where
  | ok (rowsAdded totalRows columns : Nat)
  | err (msg : String)
deriving DecidableEq

/-- The `success` field of the returned dict. -/
def CombineResult.success : CombineResult → Bool
  | CombineResult.ok _ _ _ => true
  | CombineResult.err _ => false

/-- `str()` of a numeric value, used on dtype promotion to object. -/
def numValStr : NumVal → String
  | NumVal.fin rep => rep
  | NumVal.nan => "nan"
  | NumVal.posInf => "inf"
  | NumVal.negInf => "-inf"

/-- Row append of two columns (`pd.concat` on aligned columns); mixed
dtypes promote to object. -/
def ColVals.append : ColVals → ColVals → ColVals
  | ColVals.numeric a, ColVals.numeric b => ColVals.numeric (a ++ b)
  | ColVals.textual a, ColVals.textual b => ColVals.textual (a ++ b)
  | ColVals.numeric a, ColVals.textual b => ColVals.textual (a.map numValStr ++ b)
  | ColVals.textual a, ColVals.numeric b => ColVals.textual (a ++ b.map numValStr)

/-- `pd.concat([a, b], ignore_index=True)` for the aligned case (equal
column lists), the only case `combine_files` reaches after its
signature check. -/
def concatDf (a b : DataFrame) : DataFrame :=
  DataFrame.mk a.headers (List.zipWith ColVals.append a.cols b.cols)

/-- `df['_upload_id'] = uid`: broadcast assignment — overwrite the
column if present, else append it at the end. -/
def addUploadId (df : DataFrame) (uid : String) : DataFrame :=
  if "_upload_id" ∈ df.headers then
    DataFrame.mk df.headers
      ((df.headers.zip df.cols).map (fun hc =>
        if hc.1 = "_upload_id" then ColVals.textual (List.replicate df.nrows uid) else hc.2))
  else
    DataFrame.mk (df.headers ++ ["_upload_id"])
      (df.cols ++ [ColVals.textual (List.replicate df.nrows uid)])

/-- `[c for c in df.columns if c != '_upload_id']`. -/
def colsExcl (df : DataFrame) : List String :=
  df.headers.filter (fun c => c ≠ "_upload_id")

/-- The tail of `combine_files` after a successful check: optional
re-optimization, persist the pickle, drop the stale Excel artifact. -/
def finishCombine (optimize : DataFrame → DataFrame) (newRows : Nat)
    (combined0 : DataFrame) : CombineResult × Store :=
  let combined := if combined0.nrows > 10000 then optimize combined0 else combined0
  (CombineResult.ok newRows combined.nrows (combined.headers.length - 1),
   Store.mk (some combined) none)

/-- `combine_files(project, path, upload_id)` with the upload already
read into `newDf0` and the project state in `store`. -/
def combineFiles (optimize : DataFrame → DataFrame) (store : Store)
    (newDf0 : DataFrame) (uploadId : String) : CombineResult × Store :=
  let newRows := newDf0.nrows
  let newDf := addUploadId (optimize newDf0) uploadId
  match store.pickle with
  | some consolidated =>
    if colsExcl newDf ≠ colsExcl consolidated then
      (CombineResult.err ("Column headers do not match!"), store)
    else finishCombine optimize newRows (concatDf consolidated newDf)
  | none =>
    match store.excel with
    | some consolidated0 =>
      if colsExcl newDf ≠ colsExcl consolidated0 then
        (CombineResult.err ("Column headers do not match!"), store)
      else
        let consolidated :=
          if "_upload_id" ∈ consolidated0.headers then consolidated0
          else addUploadId consolidated0 ("legacy")
        finishCombine optimize newRows (concatDf consolidated newDf)
    | none => finishCombine optimize newRows newDf

/-! ### Theorems -/

theorem natToDecGo_fuel : ∀ n f, n < f → natToDecGo f n = natToDecAux n := by
  intro n
  induction n using Nat.strong_induction_on with
  | _ n ih =>
    intro f hf
    match f with
    | f + 1 =>
      show natToDecGo (f + 1) n = natToDecGo (n + 1) n
      by_cases h : n < 10
      · simp [natToDecGo, h]
      · have hd : n / 10 < n := Nat.div_lt_self (by omega) (by omega)
        simp only [natToDecGo, h, if_neg, not_false_iff]
        rw [ih (n / 10) hd f (by omega), ih (n / 10) hd n (by omega)]

/-- The recurrence satisfied by `natToDecAux`, mirroring the Python
digit loop. -/
theorem natToDecAux_eq (n : Nat) :
    natToDecAux n
      = if n < 10 then [Char.ofNat (48 + n % 10)]
        else natToDecAux (n / 10) ++ [Char.ofNat (48 + n % 10)] := by
  show natToDecGo (n + 1) n = _
  by_cases h : n < 10
  · simp [natToDecGo, h]
  · have hd : n / 10 < n := Nat.div_lt_self (by omega) (by omega)
    simp only [natToDecGo, h, if_neg, not_false_iff]
    rw [natToDecGo_fuel (n / 10) n (by omega)]

/-- Codes of the decimal digit characters round-trip through `Char.ofNat`. -/
theorem digitCode_toNat : ∀ r : Nat, r < 10 → (Char.ofNat (48 + r)).toNat = 48 + r := by
  decide

theorem decVal_append (l : List Char) (c : Char) :
    decVal (l ++ [c]) = decVal l * 10 + (c.toNat - 48) := by
  simp [decVal]

/-- Helper: the valuation of `natToDecAux n` computed from accumulator `acc`. -/
theorem decValFrom_natToDecAux (n : Nat) : ∀ acc : Nat,
    (natToDecAux n).foldl (fun acc c => acc * 10 + (c.toNat - 48)) acc
      = acc * 10 ^ (natToDecAux n).length + n := by
  induction n using Nat.strong_induction_on with
  | _ n ih =>
    intro acc
    rw [natToDecAux_eq]
    by_cases h : n < 10
    · simp only [h, if_pos]
      have hc := digitCode_toNat (n % 10) (Nat.mod_lt _ (by omega))
      simp only [List.foldl, List.length_cons, List.length_nil, hc]
      have := Nat.mod_eq_of_lt h
      omega
    · simp only [h, if_neg, not_false_iff]
      have hd : n / 10 < n := Nat.div_lt_self (by omega) (by omega)
      rw [List.foldl_append]
      rw [ih (n / 10) hd acc]
      simp only [List.foldl, List.length_append, List.length_cons, List.length_nil]
      rw [digitCode_toNat (n % 10) (Nat.mod_lt _ (by omega))]
      have : acc * 10 ^ ((natToDecAux (n / 10)).length + 1)
          = acc * 10 ^ (natToDecAux (n / 10)).length * 10 := by ring
      rw [this]
      have hmod : n % 10 < 10 := Nat.mod_lt _ (by omega)
      have := Nat.div_add_mod n 10
      omega

/-- `decVal` is a left inverse of decimal rendering. -/
theorem decVal_natToDecAux (n : Nat) : decVal (natToDecAux n) = n := by
  have := decValFrom_natToDecAux n 0
  simpa [decVal] using this

/-- Decimal rendering is injective: distinct integers render to
distinct strings. -/
theorem natToDec_injective : Function.Injective natToDec := by
  intro a b h
  have : natToDecAux a = natToDecAux b := congrArg String.data h
  have ha := decVal_natToDecAux a
  have hb := decVal_natToDecAux b
  rw [this] at ha
  omega

theorem colLetterGo_fuel : ∀ idx f, idx < f → colLetterGo f idx = colLetterAux idx := by
  intro idx
  induction idx using Nat.strong_induction_on with
  | _ idx ih =>
    intro f hf
    match f with
    | f + 1 =>
      show colLetterGo (f + 1) idx = colLetterGo (idx + 1) idx
      by_cases h : idx < 26
      · simp [colLetterGo, h]
      · have hd : idx / 26 - 1 < idx := by
          have : idx / 26 < idx := Nat.div_lt_self (by omega) (by omega)
          omega
        simp only [colLetterGo, h, if_neg, not_false_iff]
        rw [ih _ hd f (by omega), ih _ hd idx (by omega)]

/-- The recurrence satisfied by `colLetterAux`, mirroring the Python
loop: prepend `chr(65 + idx % 26)`, continue with `idx // 26 - 1`
while non-negative. -/
theorem colLetterAux_eq (idx : Nat) :
    colLetterAux idx
      = if idx < 26 then [Char.ofNat (65 + idx % 26)]
        else colLetterAux (idx / 26 - 1) ++ [Char.ofNat (65 + idx % 26)] := by
  show colLetterGo (idx + 1) idx = _
  by_cases h : idx < 26
  · simp [colLetterGo, h]
  · have hd : idx / 26 - 1 < idx := by
      have : idx / 26 < idx := Nat.div_lt_self (by omega) (by omega)
      omega
    simp only [colLetterGo, h, if_neg, not_false_iff]
    rw [colLetterGo_fuel _ idx (by omega)]

/-- Codes of the letter characters round-trip through `Char.ofNat`. -/
theorem letterCode_toNat : ∀ r : Nat, r < 26 → (Char.ofNat (65 + r)).toNat = 65 + r := by
  decide

theorem colValFrom_append (acc : Int) (l : List Char) (c : Char) :
    colValFrom acc (l ++ [c]) = (colValFrom acc l + 1) * 26 + ((c.toNat : Int) - 65) := by
  simp [colValFrom]

/-- `colVal` is a left inverse of `colLetterAux`. -/
theorem colVal_colLetterAux (idx : Nat) : colVal (colLetterAux idx) = idx := by
  induction idx using Nat.strong_induction_on with
  | _ idx ih =>
    rw [colLetterAux_eq]
    by_cases h : idx < 26
    · simp only [h, if_pos]
      have hc := letterCode_toNat (idx % 26) (Nat.mod_lt _ (by omega))
      simp only [colVal, colValFrom, List.foldl, hc]
      have := Nat.mod_eq_of_lt h
      push_cast
      omega
    · simp only [h, if_neg, not_false_iff]
      have hd : idx / 26 - 1 < idx := by
        have : idx / 26 < idx := Nat.div_lt_self (by omega) (by omega)
        omega
      have hih := ih (idx / 26 - 1) hd
      unfold colVal at hih ⊢
      rw [colValFrom_append, hih]
      rw [letterCode_toNat (idx % 26) (Nat.mod_lt _ (by omega))]
      have h1 : 1 ≤ idx / 26 := Nat.one_le_div_iff (by omega) |>.mpr (by omega)
      have hdm := Nat.div_add_mod idx 26
      have hmod : idx % 26 < 26 := Nat.mod_lt _ (by omega)
      push_cast
      omega

/-- `colLetterAux` is injective. -/
theorem colLetterAux_injective : Function.Injective colLetterAux := by
  intro a b h
  have ha := colVal_colLetterAux a
  have hb := colVal_colLetterAux b
  rw [h] at ha
  omega

/-- `_col_letter` is injective: all column letters are pairwise distinct. -/
theorem colLetter_injective : Function.Injective colLetter := by
  intro a b h
  exact colLetterAux_injective (congrArg String.data h)

/-- Every character produced by `colLetterAux` is a letter `A`..`Z`. -/
theorem colLetterAux_digits (idx : Nat) :
    ∀ c ∈ colLetterAux idx, 65 ≤ c.toNat ∧ c.toNat ≤ 90 := by
  induction idx using Nat.strong_induction_on with
  | _ idx ih =>
    intro c hc
    rw [colLetterAux_eq] at hc
    have hm : idx % 26 < 26 := Nat.mod_lt _ (by omega)
    have hcode := letterCode_toNat (idx % 26) hm
    by_cases h : idx < 26
    · simp only [h, if_pos, List.mem_singleton] at hc
      subst hc; omega
    · simp only [h, if_neg, not_false_iff, List.mem_append, List.mem_singleton] at hc
      rcases hc with hc | hc
      · have hd : idx / 26 - 1 < idx := by
          have : idx / 26 < idx := Nat.div_lt_self (by omega) (by omega)
          omega
        exact ih _ hd c hc
      · subst hc; omega

/-- `colValFrom` is strictly monotone in the accumulator, uniformly over
equal-length digit strings. -/
theorem colValFrom_strictMono :
    ∀ (t1 t2 : List Char), t1.length = t2.length →
    (∀ c ∈ t1, 65 ≤ c.toNat ∧ c.toNat ≤ 90) →
    (∀ c ∈ t2, 65 ≤ c.toNat ∧ c.toNat ≤ 90) →
    ∀ acc1 acc2 : Int, acc1 < acc2 → colValFrom acc1 t1 < colValFrom acc2 t2 := by
  intro t1
  induction t1 with
  | nil =>
    intro t2 hlen _ _ acc1 acc2 hacc
    cases t2 with
    | nil => simpa [colValFrom] using hacc
    | cons b t => simp at hlen
  | cons a s ih =>
    intro t2 hlen hd1 hd2 acc1 acc2 hacc
    cases t2 with
    | nil => simp at hlen
    | cons b t =>
      simp only [List.length_cons, Nat.succ.injEq] at hlen
      have ha := hd1 a (List.mem_cons_self _ _)
      have hb := hd2 b (List.mem_cons_self _ _)
      simp only [colValFrom, List.foldl] at *
      apply ih t hlen (fun c hc => hd1 c (List.mem_cons_of_mem _ hc))
        (fun c hc => hd2 c (List.mem_cons_of_mem _ hc))
      omega

/-- Lexicographically smaller equal-length digit strings have smaller
valuations. -/
theorem colValFrom_lt_of_lexLt :
    ∀ (t1 t2 : List Char), t1.length = t2.length →
    (∀ c ∈ t1, 65 ≤ c.toNat ∧ c.toNat ≤ 90) →
    (∀ c ∈ t2, 65 ≤ c.toNat ∧ c.toNat ≤ 90) →
    lexLt t1 t2 = true →
    ∀ acc : Int, colValFrom acc t1 < colValFrom acc t2 := by
  intro t1
  induction t1 with
  | nil =>
    intro t2 hlen _ _ hlex acc
    cases t2 with
    | nil => simp [lexLt] at hlex
    | cons b t => simp at hlen
  | cons a s ih =>
    intro t2 hlen hd1 hd2 hlex acc
    cases t2 with
    | nil => simp [lexLt] at hlex
    | cons b t =>
      simp only [List.length_cons, Nat.succ.injEq] at hlen
      simp only [lexLt, Bool.or_eq_true, Bool.and_eq_true, decide_eq_true_eq,
        beq_iff_eq] at hlex
      have ha := hd1 a (List.mem_cons_self _ _)
      have hb := hd2 b (List.mem_cons_self _ _)
      simp only [colValFrom, List.foldl]
      rcases hlex with hab | ⟨hab, hlex⟩
      · exact colValFrom_strictMono s t hlen
          (fun c hc => hd1 c (List.mem_cons_of_mem _ hc))
          (fun c hc => hd2 c (List.mem_cons_of_mem _ hc)) _ _ (by omega)
      · rw [hab]
        exact ih t hlen (fun c hc => hd1 c (List.mem_cons_of_mem _ hc))
          (fun c hc => hd2 c (List.mem_cons_of_mem _ hc)) hlex _

/-- Totality of `lexLt` on equal-length strings (up to character codes). -/
theorem lexLt_total :
    ∀ (t1 t2 : List Char), t1.length = t2.length →
    lexLt t1 t2 = true ∨ t1.map Char.toNat = t2.map Char.toNat ∨ lexLt t2 t1 = true := by
  intro t1
  induction t1 with
  | nil =>
    intro t2 hlen
    cases t2 with
    | nil => right; left; rfl
    | cons b t => simp at hlen
  | cons a s ih =>
    intro t2 hlen
    cases t2 with
    | nil => simp at hlen
    | cons b t =>
      simp only [List.length_cons, Nat.succ.injEq] at hlen
      rcases Nat.lt_trichotomy a.toNat b.toNat with h | h | h
      · left; simp [lexLt, h]
      · rcases ih t hlen with h' | h' | h'
        · left; simp [lexLt, h, h']
        · right; left; simp [List.map, h, h']
        · right; right; simp [lexLt, h.symm, h']
      · right; right; simp [lexLt, h]

/-- The valuation only depends on the character codes. -/
theorem colValFrom_eq_of_map_toNat (t1 t2 : List Char)
    (h : t1.map Char.toNat = t2.map Char.toNat) :
    ∀ acc : Int, colValFrom acc t1 = colValFrom acc t2 := by
  induction t1 generalizing t2 with
  | nil =>
    cases t2 with
    | nil => intro acc; rfl
    | cons b t => simp at h
  | cons a s ih =>
    cases t2 with
    | nil => simp at h
    | cons b t =>
      simp only [List.map, List.cons.injEq] at h
      intro acc
      simp only [colValFrom, List.foldl, h.1]
      exact ih t h.2 _

/-- Length recurrence for `colLetterAux`. -/
theorem colLetterAux_length_eq (idx : Nat) :
    (colLetterAux idx).length
      = if idx < 26 then 1 else (colLetterAux (idx / 26 - 1)).length + 1 := by
  rw [colLetterAux_eq]
  by_cases h : idx < 26 <;> simp [h]

theorem colLetterAux_length_pos (idx : Nat) : 1 ≤ (colLetterAux idx).length := by
  rw [colLetterAux_length_eq]
  by_cases h : idx < 26 <;> simp [h]

/-- The letter-string length is monotone in the column index. -/
theorem colLetterAux_length_mono :
    ∀ j i : Nat, i ≤ j → (colLetterAux i).length ≤ (colLetterAux j).length := by
  intro j
  induction j using Nat.strong_induction_on with
  | _ j ih =>
    intro i hij
    rw [colLetterAux_length_eq i, colLetterAux_length_eq j]
    by_cases hj : j < 26
    · have hi : i < 26 := by omega
      simp [hi, hj]
    · by_cases hi : i < 26
      · have := colLetterAux_length_pos (j / 26 - 1)
        simp only [hi, if_pos, hj, if_neg, not_false_iff]
        omega
      · simp only [hi, hj, if_neg, not_false_iff]
        have hd : j / 26 - 1 < j := by
          have : j / 26 < j := Nat.div_lt_self (by omega) (by omega)
          omega
        have hmono : i / 26 - 1 ≤ j / 26 - 1 := by
          have := Nat.div_le_div_right (c := 26) hij
          omega
        have := ih (j / 26 - 1) hd (i / 26 - 1) hmono
        omega

/-- `_col_letter` enumerates columns in the spreadsheet column order:
larger indices give strictly later letter strings. -/
theorem colLetter_strictMono (i j : Nat) (hij : i < j) :
    colOrderLt (colLetter i) (colLetter j) := by
  have hlen : (colLetterAux i).length ≤ (colLetterAux j).length :=
    colLetterAux_length_mono j i (le_of_lt hij)
  rcases lt_or_eq_of_le hlen with hlt | heq
  · exact Or.inl hlt
  · right
    refine ⟨heq, ?_⟩
    rcases lexLt_total (colLetterAux i) (colLetterAux j) heq with h | h | h
    · exact h
    · exfalso
      have := colValFrom_eq_of_map_toNat _ _ h (-1)
      have hi := colVal_colLetterAux i
      have hj := colVal_colLetterAux j
      unfold colVal at hi hj
      omega
    · exfalso
      have := colValFrom_lt_of_lexLt (colLetterAux j) (colLetterAux i) heq.symm
        (colLetterAux_digits j) (colLetterAux_digits i) h (-1)
      have hi := colVal_colLetterAux i
      have hj := colVal_colLetterAux j
      unfold colVal at hi hj
      omega

theorem xmlUnescape_nil : xmlUnescape [] = [] := by
  simp [xmlUnescape]

theorem xmlUnescape_cons_ne (c : Char) (h : ¬ c = '&') (l : List Char) :
    xmlUnescape (c :: l) = c :: xmlUnescape l := by
  simp [xmlUnescape, h]

theorem xmlUnescape_amp (l : List Char) :
    xmlUnescape ('&' :: 'a' :: 'm' :: 'p' :: ';' :: l) = '&' :: xmlUnescape l := by
  simp [xmlUnescape]

theorem xmlUnescape_lt (l : List Char) :
    xmlUnescape ('&' :: 'l' :: 't' :: ';' :: l) = '<' :: xmlUnescape l := by
  simp [xmlUnescape]

theorem xmlUnescape_gt (l : List Char) :
    xmlUnescape ('&' :: 'g' :: 't' :: ';' :: l) = '>' :: xmlUnescape l := by
  simp [xmlUnescape]

/-- Unescaping inverts escaping on every string. -/
theorem xmlUnescape_xmlEscape (l : List Char) :
    xmlUnescape (l.flatMap escapeChar) = l := by
  induction l with
  | nil => simp [xmlUnescape_nil]
  | cons c rest ih =>
    rw [List.flatMap_cons]
    by_cases h1 : c = '&'
    · subst h1
      rw [show escapeChar '&' = ['&', 'a', 'm', 'p', ';'] from rfl]
      simp only [List.cons_append, List.nil_append]
      rw [xmlUnescape_amp, ih]
    · by_cases h2 : c = '<'
      · subst h2
        rw [show escapeChar '<' = ['&', 'l', 't', ';'] from rfl]
        simp only [List.cons_append, List.nil_append]
        rw [xmlUnescape_lt, ih]
      · by_cases h3 : c = '>'
        · subst h3
          rw [show escapeChar '>' = ['&', 'g', 't', ';'] from rfl]
          simp only [List.cons_append, List.nil_append]
          rw [xmlUnescape_gt, ih]
        · rw [show escapeChar c = [c] from by simp [escapeChar, h1, h2, h3]]
          simp only [List.cons_append, List.nil_append, List.singleton_append]
          rw [xmlUnescape_cons_ne c h1, ih]

theorem count_append_singleton (pre : List String) (c s : String) :
    (pre ++ [c]).count s = pre.count s + (if c = s then 1 else 0) := by
  by_cases h : c = s <;> simp [List.count_append, List.count_cons, h]

theorem dedupGo_eq_dedupSpec :
    ∀ (rest : List String) (pre : List String) (seen : String → Option Nat),
    (∀ s, seen s = if pre.count s = 0 then none else some (pre.count s - 1)) →
    dedupGo seen rest = dedupSpec pre rest := by
  intro rest
  induction rest with
  | nil => intro pre seen _; rfl
  | cons c cs ih =>
    intro pre seen hseen
    have hnext : ∀ (k : Option Nat) (upd : String → Option Nat),
        (∀ s, upd s = if s = c then some (pre.count c) else seen s) →
        dedupGo upd cs = dedupSpec (pre ++ [c]) cs := by
      intro k upd hupd
      apply ih
      intro s
      rw [hupd s, count_append_singleton]
      by_cases hs : s = c
      · subst hs
        simp
      · have hcs : ¬ c = s := fun h' => hs h'.symm
        simp [hs, hcs, hseen s]
    by_cases h : pre.count c = 0
    · have hc : seen c = none := by rw [hseen c]; simp [h]
      simp only [dedupGo, hc, dedupSpec, if_pos h]
      congr 1
      apply hnext none
      intro s
      rw [h]
    · have hc : seen c = some (pre.count c - 1) := by rw [hseen c]; simp [h]
      simp only [dedupGo, hc, dedupSpec, if_neg h]
      have hcnt : pre.count c - 1 + 1 = pre.count c := by omega
      rw [hcnt]
      congr 1
      apply hnext (some (pre.count c - 1))
      intro s
      by_cases hs : s = c <;> simp [hs, hcnt]

/-- `_deduplicate_columns` computes the per-text occurrence-count
suffixing convention. -/
theorem deduplicateColumns_eq_spec (cols : List String) :
    deduplicateColumns cols = dedupSpec [] cols := by
  apply dedupGo_eq_dedupSpec
  intro s
  simp

theorem sstLookup_isSome_of_mem {l : List String} {s : String} (h : s ∈ l) :
    (sstLookup l s).isSome := by
  induction l with
  | nil => cases h
  | cons t rest ih =>
    by_cases ht : t = s
    · simp [sstLookup, ht]
    · have : s ∈ rest := by
        rcases List.mem_cons.mp h with h' | h'
        · exact (ht h'.symm).elim
        · exact h'
      have := ih this
      simp only [sstLookup, if_neg ht]
      cases hx : sstLookup rest s with
      | none => rw [hx] at this; simp at this
      | some i => simp

theorem sstLookup_get {l : List String} {s : String} {i : Nat}
    (h : sstLookup l s = some i) : i < l.length ∧ l.get? i = some s := by
  induction l generalizing i with
  | nil => simp [sstLookup] at h
  | cons t rest ih =>
    by_cases ht : t = s
    · simp only [sstLookup, if_pos ht] at h
      cases h
      simp [ht]
    · simp only [sstLookup, if_neg ht] at h
      cases hx : sstLookup rest s with
      | none => rw [hx] at h; simp at h
      | some j =>
        rw [hx] at h
        simp only [Option.map_some'] at h
        cases h
        have := ih hx
        simp only [List.length_cons, List.get?_cons_succ]
        exact ⟨by omega, this.2⟩

/-- The index map is injective: two strings mapped to the same index
are equal. -/
theorem sstLookup_inj {l : List String} {s t : String} {i : Nat}
    (hs : sstLookup l s = some i) (ht : sstLookup l t = some i) : s = t := by
  have h1 := (sstLookup_get hs).2
  have h2 := (sstLookup_get ht).2
  rw [h1] at h2
  exact Option.some.inj h2

/-! ### Lemmas: membership in the collected string set -/

theorem mapM_eq_map_of_forall {α β : Type} (l : List α) (f : α → Option β) (g : α → β)
    (h : ∀ a ∈ l, f a = some (g a)) : l.mapM f = some (l.map g) := by
  induction l with
  | nil => rfl
  | cons a rest ih =>
    rw [List.mapM_cons, h a (List.mem_cons_self _ _),
      ih (fun b hb => h b (List.mem_cons_of_mem _ hb))]
    rfl

theorem mem_collectStrings_header {df : DataFrame} {h : String}
    (hh : h ∈ df.headers) : h ∈ collectStrings df := by
  simp [collectStrings, hh]

theorem mem_collectStrings_empty (df : DataFrame) : "" ∈ collectStrings df := by
  simp [collectStrings]

theorem mem_textual_foldr :
    ∀ (cols : List ColVals) (ts : List String) (v : String),
    ColVals.textual ts ∈ cols → v ∈ ts →
    normalizeMissing v ∈ cols.foldr (fun col acc =>
      match col with
      | ColVals.numeric _ => acc
      | ColVals.textual vs => vs.map normalizeMissing ++ acc) [] := by
  intro cols
  induction cols with
  | nil => intro ts v h _; cases h
  | cons c rest ih =>
    intro ts v hc hv
    rcases List.mem_cons.mp hc with h | h
    · subst h
      simp only [List.foldr_cons, List.mem_append]
      exact Or.inl (List.mem_map_of_mem _ hv)
    · cases c with
      | numeric _ => exact ih ts v h hv
      | textual ts' =>
        simp only [List.foldr_cons, List.mem_append]
        exact Or.inr (ih ts v h hv)

theorem mem_collectStrings_textual {df : DataFrame} {ts : List String} {v : String}
    (hc : ColVals.textual ts ∈ df.cols) (hv : v ∈ ts) :
    normalizeMissing v ∈ collectStrings df := by
  simp only [collectStrings, List.mem_append]
  exact Or.inl (Or.inr (mem_textual_foldr df.cols ts v hc hv))

/-- Everything collected for a member sheet is in the package table. -/
theorem mem_buildSST {sheets : List (String × DataFrame)} {nm : String}
    {df : DataFrame} {s : String} (hmem : (nm, df) ∈ sheets)
    (hs : s ∈ collectStrings df) : s ∈ buildSST sheets := by
  unfold buildSST sortedStrings
  rw [(List.perm_insertionSort _ _).mem_iff, List.mem_dedup, List.mem_flatten]
  exact ⟨collectStrings df, List.mem_map_of_mem _ hmem, hs⟩

theorem buildSST_nodup (sheets : List (String × DataFrame)) :
    (buildSST sheets).Nodup := by
  unfold buildSST sortedStrings
  exact (List.perm_insertionSort _ _).nodup_iff.mpr (List.nodup_dedup _)

theorem buildSST_sorted (sheets : List (String × DataFrame)) :
    (buildSST sheets).Sorted (· ≤ ·) :=
  List.sorted_insertionSort _ _

/-- A successful lookup as an equation on `sstIdx`. -/
theorem sstLookup_eq_sstIdx {sst : List String} {s : String}
    (h : s ∈ sst) : sstLookup sst s = some (sstIdx sst s) := by
  have := sstLookup_isSome_of_mem h
  cases hx : sstLookup sst s with
  | none => rw [hx] at this; simp at this
  | some i => simp [sstIdx, hx]

/-- Looking the index back up in the table returns the string. -/
theorem sstGet_sstIdx {sst : List String} {s : String} (h : s ∈ sst) :
    sst.get? (sstIdx sst s) = some s :=
  (sstLookup_get (sstLookup_eq_sstIdx h)).2

/-! ### Closed form of the encoder over the package table -/

theorem encodeHeaderRow_eq {sheets : List (String × DataFrame)} {nm : String}
    {df : DataFrame} (hmem : (nm, df) ∈ sheets) :
    encodeHeaderRow (sstLookup (buildSST sheets)) df.headers
      = some (df.headers.map (fun h => Cell.sref (sstIdx (buildSST sheets) h))) := by
  apply mapM_eq_map_of_forall
  intro h hh
  rw [sstLookup_eq_sstIdx (mem_buildSST hmem (mem_collectStrings_header hh))]
  rfl

theorem get?_eq_some_getD {α : Type} {l : List α} {r : Nat} (h : r < l.length)
    (d : α) : l.get? r = some (l.getD r d) := by
  cases hx : l.get? r with
  | none => rw [List.get?_eq_none] at hx; omega
  | some v =>
    rw [List.getD_eq_getElem?_getD, ← List.get?_eq_getElem?, hx]
    rfl

theorem encodeDataCell_eq {sheets : List (String × DataFrame)} {nm : String}
    {df : DataFrame} (hmem : (nm, df) ∈ sheets) {col : ColVals} (hcol : col ∈ df.cols)
    {r : Nat} (hr : r < col.size) :
    encodeDataCell (sstLookup (buildSST sheets)) col r
      = some (totalCell (buildSST sheets) col r) := by
  have hidx := sstLookup_eq_sstIdx (mem_buildSST hmem (mem_collectStrings_empty df))
  cases col with
  | numeric vs =>
    simp only [ColVals.size] at hr
    rw [encodeDataCell, get?_eq_some_getD hr NumVal.nan, Option.some_bind]
    cases hv : vs.getD r NumVal.nan with
    | fin rep => simp only [totalCell, hv, encodeNumVal]
    | nan => simp only [totalCell, hv, encodeNumVal, hidx, Option.map_some']
    | posInf => simp only [totalCell, hv, encodeNumVal, hidx, Option.map_some']
    | negInf => simp only [totalCell, hv, encodeNumVal, hidx, Option.map_some']
  | textual ts =>
    simp only [ColVals.size] at hr
    rw [encodeDataCell, get?_eq_some_getD hr "", Option.some_bind]
    have hv : ts.getD r "" ∈ ts :=
      List.get?_mem (get?_eq_some_getD hr "")
    rw [encodeTextVal,
      sstLookup_eq_sstIdx (mem_buildSST hmem (mem_collectStrings_textual hcol hv))]
    rfl

theorem encodeRows_eq {sheets : List (String × DataFrame)} {nm : String}
    {df : DataFrame} (hmem : (nm, df) ∈ sheets) (hwf : df.WF) :
    encodeRows df (sstLookup (buildSST sheets))
      = some (df.headers.map (fun h => Cell.sref (sstIdx (buildSST sheets) h))
          :: (List.range df.nrows).map (fun r =>
               df.cols.map (fun col => totalCell (buildSST sheets) col r))) := by
  rw [encodeRows, encodeHeaderRow_eq hmem]
  have hrows : (List.range df.nrows).mapM (encodeDataRow (sstLookup (buildSST sheets)) df.cols)
      = some ((List.range df.nrows).map (fun r =>
          df.cols.map (fun col => totalCell (buildSST sheets) col r))) := by
    apply mapM_eq_map_of_forall
    intro r hr
    rw [List.mem_range] at hr
    apply mapM_eq_map_of_forall
    intro col hcol
    exact encodeDataCell_eq hmem hcol (by rw [hwf.2 col hcol]; exact hr)
  simp only [List.mapM] at hrows
  simp [hrows]

/-! ### Decoding lemmas -/

theorem mapM_map_of_forall {α β γ : Type} (l : List α) (g : α → β) (f : β → Option γ)
    (k : α → γ) (h : ∀ a ∈ l, f (g a) = some (k a)) :
    (l.map g).mapM f = some (l.map k) := by
  induction l with
  | nil => rfl
  | cons a rest ih =>
    rw [List.map_cons, List.mapM_cons, h a (List.mem_cons_self _ _),
      List.map_cons, ih (fun b hb => h b (List.mem_cons_of_mem _ hb))]
    rfl

theorem decodeHeaderCell_sstIdx {sst : List String} {h : String} (hmem : h ∈ sst) :
    decodeHeaderCell sst (Cell.sref (sstIdx sst h)) = some h := by
  simp only [decodeHeaderCell]
  exact sstGet_sstIdx hmem

theorem decodeCell_totalCell {sheets : List (String × DataFrame)} {nm : String}
    {df : DataFrame} (hmem : (nm, df) ∈ sheets) {col : ColVals} (hcol : col ∈ df.cols)
    {r : Nat} (hr : r < col.size) :
    decodeCell (buildSST sheets) (totalCell (buildSST sheets) col r)
      = some (expectedCellValue col r) := by
  have hempty : ("") ∈ buildSST sheets :=
    mem_buildSST hmem (mem_collectStrings_empty df)
  cases col with
  | numeric vs =>
    cases hv : vs.getD r NumVal.nan with
    | fin rep => simp only [totalCell, hv, decodeCell, expectedCellValue]
    | nan =>
      simp only [totalCell, hv, decodeCell, expectedCellValue, sstGet_sstIdx hempty,
        Option.map_some']
    | posInf =>
      simp only [totalCell, hv, decodeCell, expectedCellValue, sstGet_sstIdx hempty,
        Option.map_some']
    | negInf =>
      simp only [totalCell, hv, decodeCell, expectedCellValue, sstGet_sstIdx hempty,
        Option.map_some']
  | textual ts =>
    simp only [ColVals.size] at hr
    have hvmem : ts.getD r "" ∈ ts := List.get?_mem (get?_eq_some_getD hr "")
    have hns : normalizeMissing (ts.getD r "") ∈ buildSST sheets :=
      mem_buildSST hmem (mem_collectStrings_textual hcol hvmem)
    simp only [totalCell, decodeCell, expectedCellValue, sstGet_sstIdx hns,
      Option.map_some']

theorem headers_nil_of_no_cols {df : DataFrame} (hwf : df.WF)
    (hcols : df.cols.length = 0) : df.headers = [] :=
  List.length_eq_zero.mp (hwf.1.trans hcols)

theorem nrows_zero_of_no_cols {df : DataFrame} (hcols : df.cols.length = 0) :
    df.nrows = 0 := by
  have : df.cols = [] := List.length_eq_zero.mp hcols
  simp [DataFrame.nrows, this]

/-- Decoding the structured rows produced for a member sheet recovers
the deduplicated headers and the expected (blank-normalized) grid. -/
theorem decodeSheetFallback_encodeRows {sheets : List (String × DataFrame)}
    {nm : String} {df : DataFrame} (hmem : (nm, df) ∈ sheets) (hwf : df.WF)
    {rows : List (List Cell)}
    (henc : encodeRows df (sstLookup (buildSST sheets)) = some rows) :
    decodeSheetFallback (buildSST sheets) rows
      = some (deduplicateColumns df.headers, expectedGrid df) := by
  rw [encodeRows_eq hmem hwf] at henc
  cases henc
  rw [decodeSheetFallback]
  have hhs : (df.headers.map (fun h => Cell.sref (sstIdx (buildSST sheets) h))).mapM
      (decodeHeaderCell (buildSST sheets)) = some (df.headers.map id) := by
    apply mapM_map_of_forall
    intro h hh
    exact decodeHeaderCell_sstIdx (mem_buildSST hmem (mem_collectStrings_header hh))
  have hgrid : ((List.range df.nrows).map (fun r =>
        df.cols.map (fun col => totalCell (buildSST sheets) col r))).mapM
      (fun row => row.mapM (decodeCell (buildSST sheets)))
      = some ((List.range df.nrows).map (fun r =>
          df.cols.map (fun col => expectedCellValue col r))) := by
    apply mapM_map_of_forall
    intro r hr
    rw [List.mem_range] at hr
    apply mapM_map_of_forall
    intro col hcol
    exact decodeCell_totalCell hmem hcol (by rw [hwf.2 col hcol]; exact hr)
  simp only [List.mapM] at hhs hgrid
  simp [hhs, hgrid, List.map_id, expectedGrid]

/-- Adding the back-reference column does not change the signature. -/
theorem colsExcl_addUploadId (df : DataFrame) (uid : String) :
    colsExcl (addUploadId df uid) = colsExcl df := by
  unfold addUploadId colsExcl
  by_cases h : "_upload_id" ∈ df.headers
  · simp [h]
  · simp [h, List.filter_append]

/-! ### Claim theorems -/

/-- C6: `_col_letter` is the bijective base-26 lettering:
`letter 25 = "Z"`, `letter 26 = "AA"`, `letter 701 = "ZZ"`,
`letter 702 = "AAA"`; all outputs are pairwise distinct (injectivity,
which covers distinctness on `[0, 1000)`), and the sequence enumerates
the column order (shorter strings first, then lexicographic) in
order. -/
theorem c6_col_letter :
    colLetter 25 = "Z" ∧ colLetter 26 = "AA" ∧ colLetter 701 = "ZZ"
      ∧ colLetter 702 = "AAA"
      ∧ Function.Injective colLetter
      ∧ (∀ i j : Nat, i < j → colOrderLt (colLetter i) (colLetter j)) :=
  ⟨by decide, by decide, by decide, by decide, colLetter_injective,
    colLetter_strictMono⟩

theorem c6_col_letter_witness :
    (3 : Nat) < 30 ∧ colOrderLt (colLetter 3) (colLetter 30) :=
  ⟨by decide, c6_col_letter.2.2.2.2.2 3 30 (by decide)⟩

/-- C7: header deduplication keeps the first occurrence of a text
unchanged and turns the `(k+1)`-st occurrence into `text.k`, with the
counter kept per distinct text (`dedupSpec`, worded from the spec, and
implemented by both reader paths); in particular
`["A","B","A","A"] ↦ ["A","B","A.1","A.2"]`. -/
theorem c7_header_dedup :
    (∀ cols : List String, deduplicateColumns cols = dedupSpec [] cols)
      ∧ deduplicateColumns [("A"), ("B"), ("A"), ("A")]
          = [("A"), ("B"), ("A.1"), ("A.2")] :=
  ⟨deduplicateColumns_eq_spec, by decide⟩

/-- C3 counterexample: the shared string table built for zero sheets is
empty — it does not contain the empty string, let alone exactly one
entry. -/
theorem c3_counterexample :
    buildSST [] = [] ∧ ¬ (("") ∈ buildSST []) := by
  constructor
  · rfl
  · intro h
    simp [buildSST, sortedStrings] at h

/-- C3 amended: building the table always succeeds (it is a total
function); a zero-sheet package yields an empty table, and every
non-empty sheet set yields a table containing the empty string. -/
theorem c3_empty_sheet_set :
    buildSST [] = []
      ∧ (∀ sheets : List (String × DataFrame), sheets ≠ [] →
          ("") ∈ buildSST sheets) := by
  refine ⟨rfl, ?_⟩
  intro sheets hne
  obtain ⟨nd, hnd⟩ := List.exists_mem_of_ne_nil sheets hne
  have : (nd.1, nd.2) ∈ sheets := by rwa [Prod.mk.eta]
  exact mem_buildSST this (mem_collectStrings_empty nd.2)

theorem c3_empty_sheet_set_witness :
    [(("S"), DataFrame.mk [] [])] ≠ ([] : List (String × DataFrame))
      ∧ ("") ∈ buildSST [(("S"), DataFrame.mk [] [])] :=
  ⟨by decide, c3_empty_sheet_set.2 _ (by decide)⟩

/-- C2 counterexample: `_xml_escape` (= `xml.sax.saxutils.escape` with
default entities) leaves quote characters unchanged, so a sheet name
containing a quote reaches the `name="..."` attribute verbatim. -/
theorem c2_counterexample :
    xmlEscape ("\x22") = "\x22"
      ∧ sheetEntryXml 0 ("a\x22b")
          = "<sheet name=\"a\x22b\" sheetId=\"1\" r:id=\"rId1\"/>" :=
  ⟨by decide, by decide⟩

/-- C2 amended: text inserted into markup is escaped for `&`, `<` and
`>` (but not for quote characters): the three characters map to their
entities, the escaped output contains no raw `<` or `>`, and every
string — in particular every sheet name containing the escaped
characters — round-trips through escaping and unescaping. -/
theorem c2_escape_roundtrip :
    (∀ s : String, xmlUnescape (xmlEscape s).data = s.data)
      ∧ xmlEscape ("&") = "&amp;"
      ∧ xmlEscape ("<") = "&lt;"
      ∧ xmlEscape (">") = "&gt;"
      ∧ (∀ s : String, ∀ c ∈ (xmlEscape s).data, c ≠ '<' ∧ c ≠ '>') := by
  refine ⟨fun s => xmlUnescape_xmlEscape s.data, by decide, by decide, by decide, ?_⟩
  intro s c hc
  simp only [xmlEscape, List.mem_flatMap] at hc
  obtain ⟨a, _, hca⟩ := hc
  by_cases h1 : a = '&'
  · subst h1
    rw [show escapeChar '&' = ['&', 'a', 'm', 'p', ';'] from rfl] at hca
    simp only [List.mem_cons, List.not_mem_nil, or_false] at hca
    rcases hca with rfl | rfl | rfl | rfl | rfl <;> exact ⟨by decide, by decide⟩
  · by_cases h2 : a = '<'
    · subst h2
      rw [show escapeChar '<' = ['&', 'l', 't', ';'] from rfl] at hca
      simp only [List.mem_cons, List.not_mem_nil, or_false] at hca
      rcases hca with rfl | rfl | rfl | rfl <;> exact ⟨by decide, by decide⟩
    · by_cases h3 : a = '>'
      · subst h3
        rw [show escapeChar '>' = ['&', 'g', 't', ';'] from rfl] at hca
        simp only [List.mem_cons, List.not_mem_nil, or_false] at hca
        rcases hca with rfl | rfl | rfl | rfl <;> exact ⟨by decide, by decide⟩
      · simp only [escapeChar, if_neg h1, if_neg h2, if_neg h3,
          List.mem_singleton] at hca
        subst hca
        exact ⟨h2, h3⟩

theorem c2_escape_roundtrip_witness :
    xmlUnescape (xmlEscape ("a<b&c>\x22d")).data = ("a<b&c>\x22d").data
      ∧ 'a' ∈ (xmlEscape ("a<b")).data ∧ 'a' ≠ '<' ∧ 'a' ≠ '>' := by
  refine ⟨c2_escape_roundtrip.1 _, by decide, ?_, ?_⟩
  · exact (c2_escape_roundtrip.2.2.2.2 ("a<b") 'a' (by decide)).1
  · exact (c2_escape_roundtrip.2.2.2.2 ("a<b") 'a' (by decide)).2

/-- C8: schema-mismatch rejection is atomic — when the ordered column
signature (excluding `_upload_id`) of the new upload differs from the
persisted consolidated table's, `combine_files` returns a failure and
leaves the persisted state unchanged, on both the pickle branch and
the legacy-Excel branch. -/
theorem c8_schema_mismatch (optimize : DataFrame → DataFrame) (store : Store)
    (new old : DataFrame) (uid : String)
    (hopt : (optimize new).headers = new.headers)
    (hneq : colsExcl new ≠ colsExcl old) :
    (store.pickle = some old →
      (combineFiles optimize store new uid).1.success = false
        ∧ (combineFiles optimize store new uid).2 = store)
      ∧ (store.pickle = none → store.excel = some old →
          (combineFiles optimize store new uid).1.success = false
            ∧ (combineFiles optimize store new uid).2 = store) := by
  have hsig : colsExcl (addUploadId (optimize new) uid) = colsExcl old
      ↔ colsExcl new = colsExcl old := by
    rw [colsExcl_addUploadId]
    unfold colsExcl
    rw [hopt]
  constructor
  · intro hp
    simp only [combineFiles, hp]
    rw [if_pos (fun h => hneq (hsig.mp h))]
    exact ⟨rfl, rfl⟩
  · intro hp hx
    simp only [combineFiles, hp, hx]
    rw [if_pos (fun h => hneq (hsig.mp h))]
    exact ⟨rfl, rfl⟩

theorem mapM_singleton {α β : Type} (f : α → Option β) (a : α) :
    [a].mapM f = (f a).map (fun b => [b]) := by
  rw [List.mapM_cons, List.mapM_nil]
  cases hf : f a <;> rfl

theorem mapM_isSome_of_forall {α β : Type} (l : List α) (f : α → Option β)
    (h : ∀ a ∈ l, (f a).isSome) : (l.mapM f).isSome := by
  induction l with
  | nil => rfl
  | cons a rest ih =>
    obtain ⟨b, hb⟩ := Option.isSome_iff_exists.mp (h a (List.mem_cons_self _ _))
    obtain ⟨bs, hbs⟩ := Option.isSome_iff_exists.mp
      (ih (fun x hx => h x (List.mem_cons_of_mem _ hx)))
    rw [List.mapM_cons, hb, hbs]
    rfl

theorem mapM_some_length {α β : Type} {l : List α} {f : α → Option β} {bs : List β}
    (h : l.mapM f = some bs) : bs.length = l.length := by
  induction l generalizing bs with
  | nil =>
    have : some ([] : List β) = some bs := h
    cases this
    rfl
  | cons a rest ih =>
    rw [List.mapM_cons] at h
    cases hb : f a with
    | none => rw [hb] at h; simp at h
    | some b =>
      rw [hb] at h
      cases hbs : rest.mapM f with
      | none => rw [hbs] at h; simp at h
      | some bs' =>
        rw [hbs] at h
        have h' : some (b :: bs') = some bs := h
        cases h'
        simp [ih hbs]

theorem assemblePackage_singleton {nm : String} {df : DataFrame}
    {rows : List (List Cell)}
    (h : structuredSheet df (sstLookup (buildSST [(nm, df)])) = some rows) :
    assemblePackage [(nm, df)]
      = some (PackageStruct.mk (buildSST [(nm, df)]) [(nm, rows)]) := by
  simp only [assemblePackage]
  rw [mapM_singleton]
  simp [h]

theorem rid_render_injective (a b : Nat)
    (h : ("rId" ++ natToDec a) = ("rId" ++ natToDec b)) : a = b := by
  have hd := congrArg String.data h
  rw [String.data_append, String.data_append] at hd
  have : natToDecAux a = natToDecAux b := List.append_cancel_left hd
  have ha := decVal_natToDecAux a
  have hb := decVal_natToDecAux b
  rw [this] at ha
  omega

/-- C4: the shared string table of a non-empty package contains every
header of every member sheet and every normalized textual cell value,
always contains the empty string, has no duplicates, is sorted, and
its index assignment is a collision-free bijection onto `0..N-1`
(shared by all sheets of the package, which all look indices up in this
one table). -/
theorem c4_string_table (sheets : List (String × DataFrame)) (hne : sheets ≠ []) :
    (∀ nm df, (nm, df) ∈ sheets →
        (∀ h ∈ df.headers, h ∈ buildSST sheets)
          ∧ (∀ ts, ColVals.textual ts ∈ df.cols → ∀ v ∈ ts,
              normalizeMissing v ∈ buildSST sheets))
      ∧ ("") ∈ buildSST sheets
      ∧ (buildSST sheets).Nodup
      ∧ (buildSST sheets).Sorted (· ≤ ·)
      ∧ (∀ s ∈ buildSST sheets, ∃ i, i < (buildSST sheets).length
          ∧ sstLookup (buildSST sheets) s = some i
          ∧ (buildSST sheets).get? i = some s)
      ∧ (∀ s t i, sstLookup (buildSST sheets) s = some i →
          sstLookup (buildSST sheets) t = some i → s = t) := by
  refine ⟨?_, ?_, buildSST_nodup sheets, buildSST_sorted sheets, ?_, ?_⟩
  · intro nm df hmem
    exact ⟨fun h hh => mem_buildSST hmem (mem_collectStrings_header hh),
      fun ts hts v hv => mem_buildSST hmem (mem_collectStrings_textual hts hv)⟩
  · obtain ⟨nd, hnd⟩ := List.exists_mem_of_ne_nil sheets hne
    have hmem : (nd.1, nd.2) ∈ sheets := by rwa [Prod.mk.eta]
    exact mem_buildSST hmem (mem_collectStrings_empty nd.2)
  · intro s hs
    exact ⟨sstIdx (buildSST sheets) s, (sstLookup_get (sstLookup_eq_sstIdx hs)).1,
      sstLookup_eq_sstIdx hs, sstGet_sstIdx hs⟩
  · intro s t i hs ht
    exact sstLookup_inj hs ht

theorem c4_string_table_witness :
    ("") ∈ buildSST [(("S"), DataFrame.mk [("H")] [ColVals.textual [("x")]])]
      ∧ (buildSST [(("S"), DataFrame.mk [("H")] [ColVals.textual [("x")]])]).Nodup :=
  ⟨(c4_string_table [(("S"), DataFrame.mk [("H")] [ColVals.textual [("x")]])]
      (by decide)).2.1,
   (c4_string_table [(("S"), DataFrame.mk [("H")] [ColVals.textual [("x")]])]
      (by decide)).2.2.1⟩

/-- C5: sheet encoding — a zero-column sheet encodes to the minimal
empty-body worksheet markup; otherwise, over a total index `f`, row 1
holds one shared-string cell per header (regardless of column
classification), and each data-row cell is a shared reference to the
empty-string entry for NaN/±Infinity numeric values, the bare numeric
literal for other numeric values, and a shared reference to the
normalized value for textual columns. -/
theorem c5_sheet_encoding (df : DataFrame) (f : String → Nat) (hwf : df.WF) :
    (df.cols.length = 0 → dfToSheetXml df (fun s => some (f s)) = some emptySheetXml)
      ∧ encodeRows df (fun s => some (f s))
          = some (df.headers.map (fun h => Cell.sref (f h))
              :: (List.range df.nrows).map (fun r => df.cols.map (fun col =>
                   match col with
                   | ColVals.numeric vs =>
                     match vs.getD r NumVal.nan with
                     | NumVal.fin rep => Cell.numCell rep
                     | _ => Cell.sref (f (""))
                   | ColVals.textual ts =>
                     Cell.sref (f (normalizeMissing (ts.getD r "")))))) := by
  constructor
  · intro h
    simp [dfToSheetXml, h]
  · rw [encodeRows]
    have hh : encodeHeaderRow (fun s => some (f s)) df.headers
        = some (df.headers.map (fun h => Cell.sref (f h))) := by
      apply mapM_eq_map_of_forall
      intro h _
      rfl
    have hrows : (List.range df.nrows).mapM
          (encodeDataRow (fun s => some (f s)) df.cols)
        = some ((List.range df.nrows).map (fun r => df.cols.map (fun col =>
            match col with
            | ColVals.numeric vs =>
              match vs.getD r NumVal.nan with
              | NumVal.fin rep => Cell.numCell rep
              | _ => Cell.sref (f (""))
            | ColVals.textual ts =>
              Cell.sref (f (normalizeMissing (ts.getD r "")))))) := by
      apply mapM_eq_map_of_forall
      intro r hr
      rw [List.mem_range] at hr
      apply mapM_eq_map_of_forall
      intro col hcol
      have hrc : r < col.size := by rw [hwf.2 col hcol]; exact hr
      cases col with
      | numeric vs =>
        simp only [ColVals.size] at hrc
        rw [encodeDataCell, get?_eq_some_getD hrc NumVal.nan, Option.some_bind]
        cases hv : vs.getD r NumVal.nan with
        | fin rep => simp only [hv, encodeNumVal]
        | nan => simp only [hv, encodeNumVal, Option.map_some']
        | posInf => simp only [hv, encodeNumVal, Option.map_some']
        | negInf => simp only [hv, encodeNumVal, Option.map_some']
      | textual ts =>
        simp only [ColVals.size] at hrc
        rw [encodeDataCell, get?_eq_some_getD hrc "", Option.some_bind]
        rfl
    rw [hh]
    simp only [List.mapM] at hrows
    simp [hrows]

theorem c5_sheet_encoding_witness :
    dfToSheetXml (DataFrame.mk [] []) (fun s => some ((fun _ => 0) s))
      = some emptySheetXml :=
  (c5_sheet_encoding (DataFrame.mk [] []) (fun _ => 0) (by decide)).1 rfl

/-- C9: encoder lookups are safe by construction — when the shared
string table is collected over the full sheet set of the package,
encoding any well-formed member sheet succeeds (no lookup misses the
table), and so does writing the whole package. -/
theorem c9_encoder_lookups (sheets : List (String × DataFrame))
    (hwf : ∀ nd ∈ sheets, DataFrame.WF nd.2) :
    (∀ nm df, (nm, df) ∈ sheets →
        (dfToSheetXml df (sstLookup (buildSST sheets))).isSome)
      ∧ (writeXlsxRaw sheets).isSome := by
  have hsheet : ∀ nm df, (nm, df) ∈ sheets →
      (dfToSheetXml df (sstLookup (buildSST sheets))).isSome := by
    intro nm df hmem
    by_cases hcols : df.cols.length = 0
    · simp [dfToSheetXml, hcols]
    · rw [dfToSheetXml, if_neg hcols, encodeRows_eq hmem (hwf (nm, df) hmem)]
      rfl
  refine ⟨hsheet, ?_⟩
  have hall : (sheets.mapM (fun nd =>
      dfToSheetXml nd.2 (sstLookup (buildSST sheets)))).isSome := by
    apply mapM_isSome_of_forall
    intro nd hnd
    have hmem : (nd.1, nd.2) ∈ sheets := by rwa [Prod.mk.eta]
    exact hsheet nd.1 nd.2 hmem
  obtain ⟨ws, hws⟩ := Option.isSome_iff_exists.mp hall
  simp only [writeXlsxRaw]
  rw [hws]
  rfl

theorem c9_encoder_lookups_witness :
    (dfToSheetXml (DataFrame.mk [("H")] [ColVals.numeric [NumVal.nan]])
        (sstLookup (buildSST
          [(("S"), DataFrame.mk [("H")] [ColVals.numeric [NumVal.nan]])]))).isSome :=
  (c9_encoder_lookups
    [(("S"), DataFrame.mk [("H")] [ColVals.numeric [NumVal.nan]])]
    (by decide)).1 ("S") (DataFrame.mk [("H")] [ColVals.numeric [NumVal.nan]])
    (by decide)

/-- C1: round trip — assembling a single-sheet package with the raw
writer and decoding the first sheet through the FastReader fallback
returns the deduplicated header list and the expected cell values:
numeric cells by value, textual cells by string, normalized missing
values as the empty string, and NaN/±Infinity numeric cells as blank. -/
theorem c1_round_trip (nm : String) (df : DataFrame) (hwf : df.WF) :
    ∃ pkg : PackageStruct, assemblePackage [(nm, df)] = some pkg
      ∧ decodeFirstSheet pkg
          = some (deduplicateColumns df.headers, expectedGrid df) := by
  have hmem : (nm, df) ∈ [(nm, df)] := List.mem_singleton.mpr rfl
  by_cases hcols : df.cols.length = 0
  · have hstr : structuredSheet df (sstLookup (buildSST [(nm, df)])) = some [] := by
      simp [structuredSheet, hcols]
    refine ⟨_, assemblePackage_singleton hstr, ?_⟩
    show decodeSheetFallback (buildSST [(nm, df)]) [] = _
    rw [headers_nil_of_no_cols hwf hcols, expectedGrid, nrows_zero_of_no_cols hcols]
    rfl
  · have henc := encodeRows_eq hmem hwf
    have hstr : structuredSheet df (sstLookup (buildSST [(nm, df)]))
        = some (df.headers.map (fun h => Cell.sref (sstIdx (buildSST [(nm, df)]) h))
            :: (List.range df.nrows).map (fun r =>
                 df.cols.map (fun col => totalCell (buildSST [(nm, df)]) col r))) := by
      rw [structuredSheet, if_neg hcols]
      exact henc
    refine ⟨_, assemblePackage_singleton hstr, ?_⟩
    exact decodeSheetFallback_encodeRows hmem hwf henc

theorem c1_round_trip_witness :
    ∃ pkg : PackageStruct,
      assemblePackage [(("Sheet1"),
        DataFrame.mk [("Amount"), ("Note")]
          [ColVals.numeric [NumVal.fin ("100.0"), NumVal.nan, NumVal.negInf],
           ColVals.textual [("ok"), ("None"), ("x")]])] = some pkg
      ∧ decodeFirstSheet pkg
          = some (deduplicateColumns (DataFrame.mk [("Amount"), ("Note")]
              [ColVals.numeric [NumVal.fin ("100.0"), NumVal.nan, NumVal.negInf],
               ColVals.textual [("ok"), ("None"), ("x")]]).headers,
            expectedGrid (DataFrame.mk [("Amount"), ("Note")]
              [ColVals.numeric [NumVal.fin ("100.0"), NumVal.nan, NumVal.negInf],
               ColVals.textual [("ok"), ("None"), ("x")]])) :=
  c1_round_trip ("Sheet1")
    (DataFrame.mk [("Amount"), ("Note")]
      [ColVals.numeric [NumVal.fin ("100.0"), NumVal.nan, NumVal.negInf],
       ColVals.textual [("ok"), ("None"), ("x")]])
    (by decide)

/-- A member of a string list is an infix of the join of the list. -/
theorem mem_join_middle {l : List String} {s : String} (h : s ∈ l) :
    s.data <:+: (String.join l).data := by
  rw [String.data_join]
  obtain ⟨l1, l2, rfl⟩ := List.append_of_mem h
  refine ⟨(l1.map String.data).flatten, (l2.map String.data).flatten, ?_⟩
  simp

/-- An infix of `m` is an infix of `A ++ m ++ B`. -/
theorem isInfix_data_append (A : String) {x : List Char} {m : String} (B : String)
    (h : x <:+: m.data) : x <:+: (A ++ m ++ B).data := by
  obtain ⟨a, b, hab⟩ := h
  refine ⟨A.data ++ a, b ++ B.data, ?_⟩
  simp only [String.data_append]
  rw [← hab]
  simp [List.append_assoc]

/-- C10: package structure — relationship ids are the sequential,
collision-free list `rId1..rId(n+2)`; sheet `i` (0-based position) has
the workbook-manifest entry with `sheetId i+1` and `r:id rId(i+1)`, the
workbook relationship `rId(i+1)` targeting `worksheets/sheet(i+1).xml`
(styles and shared strings taking `rId(n+1)` and `rId(n+2)`), and a
content-type override entry for `/xl/worksheets/sheet(i+1).xml`
contained in the assembled `[Content_Types].xml`; the archive holds the
six fixed parts followed by one worksheet part per sheet in order; and
a zero-sheet package is still produced, with an empty sheet
manifest. -/
theorem c10_package_structure (sheets : List (String × DataFrame)) :
    ((wbRels sheets.length).map (fun e => e.1)
        = (List.range (sheets.length + 2)).map (fun i => i + 1))
      ∧ ((wbRels sheets.length).map (fun e => "rId" ++ natToDec e.1)).Nodup
      ∧ (∀ i, i < sheets.length →
          (wbRels sheets.length).get? i
            = some (i + 1, wsRelType, "worksheets/sheet" ++ natToDec (i + 1) ++ ".xml"))
      ∧ (wbRels sheets.length).get? sheets.length
          = some (sheets.length + 1, stylesRelType, "styles.xml")
      ∧ (wbRels sheets.length).get? (sheets.length + 1)
          = some (sheets.length + 2, sstRelType, "sharedStrings.xml")
      ∧ (∀ i name, (sheets.map (fun nd => nd.1)).get? i = some name →
          ((sheets.map (fun nd => nd.1)).enum.map
              (fun inm => sheetEntryXml inm.1 inm.2)).get? i
            = some ("<sheet name=\"" ++ xmlEscape name ++ "\" sheetId=\""
                ++ natToDec (i + 1) ++ "\" r:id=\"rId" ++ natToDec (i + 1) ++ "\"/>"))
      ∧ (∀ parts, writeXlsxRaw sheets = some parts →
          parts.map (fun e => e.1)
            = [("[Content_Types].xml"), ("_rels/.rels"), ("xl/_rels/workbook.xml.rels"),
               ("xl/workbook.xml"), ("xl/styles.xml"), ("xl/sharedStrings.xml")]
              ++ (List.range sheets.length).map
                  (fun i => "xl/worksheets/sheet" ++ natToDec (i + 1) ++ ".xml"))
      ∧ (sheets = [] →
          writeXlsxRaw sheets
            = some [(("[Content_Types].xml"), contentTypesXml 0),
                    (("_rels/.rels"), relsXml),
                    (("xl/_rels/workbook.xml.rels"), wbRelsXml 0),
                    (("xl/workbook.xml"), workbookXml []),
                    (("xl/styles.xml"), stylesXml),
                    (("xl/sharedStrings.xml"), sstXml [])]
          ∧ workbookXml []
            = "<?xml version=\"1.0\" encoding=\"UTF-8\" standalone=\"yes\"?><workbook xmlns=\"http://schemas.openxmlformats.org/spreadsheetml/2006/main\" xmlns:r=\"http://schemas.openxmlformats.org/officeDocument/2006/relationships\"><sheets></sheets></workbook>")
      ∧ (∀ i, i < sheets.length →
          ctOverride i
            = "<Override PartName=\"/xl/worksheets/sheet" ++ natToDec (i + 1)
              ++ ".xml\" ContentType=\"application/vnd.openxmlformats-officedocument.spreadsheetml.worksheet+xml\"/>"
          ∧ (ctOverride i).data <:+: (contentTypesXml sheets.length).data) := by
  have hids : (wbRels sheets.length).map (fun e => e.1)
      = (List.range (sheets.length + 2)).map (fun i => i + 1) := by
    rw [wbRels, List.map_append, List.map_map]
    rw [show List.range (sheets.length + 2)
        = (List.range sheets.length ++ [sheets.length]) ++ [sheets.length + 1] from by
      rw [List.range_succ, List.range_succ]]
    simp [Function.comp]
  refine ⟨hids, ?_, ?_, ?_, ?_, ?_, ?_, ?_, ?_⟩
  · have hrw : (wbRels sheets.length).map (fun e => "rId" ++ natToDec e.1)
        = ((wbRels sheets.length).map (fun e => e.1)).map
            (fun k => "rId" ++ natToDec k) := by
      rw [List.map_map]
      rfl
    rw [hrw, hids]
    apply List.Nodup.map (fun a b hab => rid_render_injective a b hab)
    exact List.Nodup.map (fun a b hab => by omega) (List.nodup_range _)
  · intro i hi
    rw [wbRels, List.get?_append (by simpa using hi), List.get?_map,
      List.get?_range hi]
    rfl
  · rw [wbRels, List.get?_append_right (by simp)]
    simp
  · rw [wbRels, List.get?_append_right (by simp)]
    simp
  · intro i name hname
    rw [List.get?_map, List.get?_enum, hname]
    rfl
  · intro parts hp
    simp only [writeXlsxRaw] at hp
    cases hx : sheets.mapM (fun nd => dfToSheetXml nd.2 (sstLookup (buildSST sheets))) with
    | none => rw [hx] at hp; simp at hp
    | some ws =>
      rw [hx] at hp
      simp only [Option.map_some'] at hp
      cases hp
      simp only [List.map_append, List.map_map, List.map_cons, List.map_nil]
      congr 1
      have hcomp : ((fun e : String × String => e.1)
            ∘ fun ix : Nat × String => ("xl/worksheets/sheet" ++ natToDec (ix.1 + 1) ++ ".xml", ix.2))
          = (fun i : Nat => "xl/worksheets/sheet" ++ natToDec (i + 1) ++ ".xml")
            ∘ Prod.fst := rfl
      rw [hcomp, ← List.map_map, List.enum_map_fst, mapM_some_length hx]
  · intro h
    subst h
    exact ⟨rfl, rfl⟩
  · intro i hi
    refine ⟨rfl, ?_⟩
    have hmem : ctOverride i ∈ (List.range sheets.length).map ctOverride :=
      List.mem_map_of_mem _ (List.mem_range.mpr hi)
    unfold contentTypesXml
    exact isInfix_data_append _ _ (mem_join_middle hmem)

theorem c10_package_structure_witness :
    ((wbRels [(("A"), DataFrame.mk [] [])].length).get? 0
        = some (1, wsRelType, "worksheets/sheet" ++ natToDec 1 ++ ".xml"))
      ∧ (ctOverride 0).data
          <:+: (contentTypesXml [(("A"), DataFrame.mk [] [])].length).data :=
  ⟨(c10_package_structure [(("A"), DataFrame.mk [] [])]).2.2.1 0 (by decide),
   ((c10_package_structure [(("A"), DataFrame.mk [] [])]).2.2.2.2.2.2.2.2 0
      (by decide)).2⟩

theorem c8_schema_mismatch_witness :
    (combineFiles id
        (Store.mk (some (DataFrame.mk [("X"), ("Z")] [])) none)
        (DataFrame.mk [("X"), ("Y")] []) ("u1")).1.success = false
      ∧ (combineFiles id
          (Store.mk (some (DataFrame.mk [("X"), ("Z")] [])) none)
          (DataFrame.mk [("X"), ("Y")] []) ("u1")).2
        = Store.mk (some (DataFrame.mk [("X"), ("Z")] [])) none :=
  (c8_schema_mismatch id
    (Store.mk (some (DataFrame.mk [("X"), ("Z")] [])) none)
    (DataFrame.mk [("X"), ("Y")] []) (DataFrame.mk [("X"), ("Z")] [])
    ("u1") rfl (by decide)).1 rfl

end DataTool
